import Mathlib

/-!
Shallow embedding of the vector-index and retrieval layer of the
Multimodal-RAG repository: `src/indexing/vector_store.py` (class
`VectorStore`) and `src/retrieval/retriever.py` (class `Retriever`).

Modelling conventions:
* Python floats are modelled as `Rat` (exact arithmetic; none of the
  verified properties depends on rounding).
* A metadata record (a Python `dict`) is an association list in key
  insertion order; `dict[k] = v` replaces the value in place when the key
  exists and appends otherwise, exactly as `setKey` below does.
* Python aliasing (the store's metadata dicts are returned by reference
  and mutated in place by the retriever) is modelled by passing around
  positions into the store's metadata list and threading the updated
  store state through each operation.
* The FAISS `IndexFlatL2` index is external library code.  It is modelled
  after its documented behaviour: `add` asserts that the input matrix has
  the index's dimension; `search(q, k)` returns `k` result slots — the
  `min(k, ntotal)` nearest stored vectors by squared L2 distance in
  ascending order, followed by padding slots with label `-1` and distance
  `FLT_MAX` when `k > ntotal`; an empty index yields only padding slots.
* `numpy.array(vectors)` produces a usable 2-d float matrix exactly when
  `vectors` is nonempty with rows of equal length; a ragged list raises
  `ValueError` and an empty list yields a 1-d shape-(0,) array that
  `index.add` cannot consume.  Both failure modes are caught by the
  blanket `except` in `add_vectors`.
* The two on-disk artifacts (FAISS index file, metadata JSON file) are a
  `Disk` record; serialization is modelled as exact round-trip.
-/

/-- Value of a metadata-record field: a string or a number. -/
inductive Val where
  | str : String → Val
  | num : Rat → Val
deriving DecidableEq

/-- A metadata record: a Python dict in key insertion order. -/
abbrev Metadata := List (String × Val)

/-- Python `dict.get(k)`: the value at the first occurrence of key `k`. -/
def getKey (m : Metadata) (k : String) : Option Val :=
  (m.find? (fun p => p.1 == k)).map (fun p => p.2)

/-- Python `dict[k] = v`: replace in place when the key exists, else append. -/
def setKey (m : Metadata) (k : String) (v : Val) : Metadata :=
  if m.any (fun p => p.1 == k) then
    m.map (fun p => if p.1 == k then (k, v) else p)
  else m ++ [(k, v)]

/-- In-memory state of `VectorStore`: the FAISS index (its dimension `d`
and stored vectors, in insertion order) and the metadata log
`self.metadata`. -/
structure VectorStore where
  dimension : Nat
  vecs : List (List Rat)
  metadata : List Metadata
deriving DecidableEq

/-- The two persisted artifacts: the FAISS index file at `index_path`
(dimension plus vectors) and the metadata JSON file at `metadata_path`. -/
structure Disk where
  indexFile : Option (Nat × List (List Rat))
  metaFile : Option (List Metadata)
deriving DecidableEq

/-- `VectorStore.get_total_vectors`: `self.index.ntotal`. -/
def VectorStore.get_total_vectors (s : VectorStore) : Nat :=
  s.vecs.length

/-- `VectorStore._init_index` (as run by the constructor): when both
artifacts exist, load them; otherwise create a fresh empty
`IndexFlatL2(dimension)`. -/
def VectorStore.init_index (dimension : Nat) (d : Disk) : VectorStore :=
  match d.indexFile, d.metaFile with
  | some (fd, fv), some fm => ⟨fd, fv, fm⟩
  | _, _ => ⟨dimension, [], []⟩

/-- `VectorStore._save_index`: write the FAISS index and the metadata log
to their two files. -/
def VectorStore.save_index (s : VectorStore) (_d : Disk) : Disk :=
  ⟨some (s.dimension, s.vecs), some s.metadata⟩

/-- Column count of `np.array(vectors).astype('float32')` when it is a
usable 2-d matrix: `vectors` must be nonempty with rows of equal length.
`none` models the raised `ValueError` (ragged input) or the shape-(0,)
array `index.add` rejects (empty input). -/
def npMatrixCols : List (List Rat) → Option Nat
  | [] => none
  | r :: rs => if rs.all (fun x => x.length == r.length) then some r.length else none

/-- `VectorStore.add_vectors(vectors, metadata_list)`.  The whole body is
wrapped in `try/except` that logs and returns, so no exception ever
reaches the caller: the `Bool` component (did an exception propagate) is
always `false`.  On the success path the vectors are appended to the
index, the metadata list is extended, and `_save_index` persists both; a
numpy conversion failure or the FAISS dimension assertion aborts before
any mutation.  No length check between `vectors` and `metadata_list` is
performed. -/
def VectorStore.add_vectors (s : VectorStore) (d : Disk)
    (vectors : List (List Rat)) (metadata_list : List Metadata) :
    VectorStore × Disk × Bool :=
  match npMatrixCols vectors with
  | none => (s, d, false)
  | some c =>
    if c = s.dimension then
      let s2 : VectorStore := ⟨s.dimension, s.vecs ++ vectors, s.metadata ++ metadata_list⟩
      (s2, s2.save_index d, false)
    else (s, d, false)

/-- Squared L2 distance between two vectors of the index dimension (the
distance `IndexFlatL2` reports). -/
def sqDist (q v : List Rat) : Rat :=
  ((q.zip v).map (fun p => (p.1 - p.2) * (p.1 - p.2))).foldl (· + ·) 0

/-- All stored vectors scored against the query, paired with their
positional labels starting at `i`. -/
def scoredList (q : List Rat) : List (List Rat) → Nat → List (Int × Rat)
  | [], _ => []
  | v :: rest, i => ((i : Int), sqDist q v) :: scoredList q rest (i + 1)

/-- Result ordering of the flat index scan: ascending distance, ties by
ascending label. -/
def pairRel (a b : Int × Rat) : Prop :=
  a.2 < b.2 ∨ (a.2 = b.2 ∧ a.1 ≤ b.1)

instance : DecidableRel pairRel := fun a b => by
  unfold pairRel; infer_instance

instance : IsTotal (Int × Rat) pairRel where
  total a b := by
    unfold pairRel
    rcases lt_trichotomy a.2 b.2 with h | h | h
    · exact Or.inl (Or.inl h)
    · rcases le_total a.1 b.1 with h1 | h1
      · exact Or.inl (Or.inr ⟨h, h1⟩)
      · exact Or.inr (Or.inr ⟨h.symm, h1⟩)
    · exact Or.inr (Or.inl h)

instance : IsTrans (Int × Rat) pairRel where
  trans a b c hab hbc := by
    unfold pairRel at hab hbc ⊢
    rcases hab with h | ⟨he, hi⟩
    · rcases hbc with h2 | ⟨he2, _⟩
      · exact Or.inl (h.trans h2)
      · exact Or.inl (he2 ▸ h)
    · rcases hbc with h2 | ⟨he2, hi2⟩
      · exact Or.inl (he ▸ h2)
      · exact Or.inr ⟨he.trans he2, hi.trans hi2⟩

/-- `FLT_MAX`, the distance FAISS reports in padding slots (the numeral
is `2 ^ 128 - 2 ^ 104`; see `fltMax_eq_pow`). -/
def fltMax : Rat := 340282346638528859811704183484516925440

/-- The distance scan of the flat index, in result order (ascending
distance). -/
def sortedScan (s : VectorStore) (q : List Rat) : List (Int × Rat) :=
  List.insertionSort pairRel (scoredList q s.vecs 0)

/-- The `k` result slots of `IndexFlatL2.search`: the `min(k, ntotal)`
nearest stored vectors in ascending distance order, then padding slots
`(-1, FLT_MAX)` when `k` exceeds `ntotal`. -/
def searchPairs (s : VectorStore) (q : List Rat) (k : Nat) : List (Int × Rat) :=
  (sortedScan s q).take k ++ List.replicate (k - s.vecs.length) (-1, fltMax)

/-- `VectorStore.search(query_vector, k)`: flattened `(indices, distances)`
lists of the `k` result slots.  A query whose length differs from the
index dimension trips the FAISS assertion, which the method's `except`
turns into `([], [])`. -/
def VectorStore.search (s : VectorStore) (q : List Rat) (k : Nat) :
    List Int × List Rat :=
  if q.length = s.dimension then
    ((searchPairs s q k).map Prod.fst, (searchPairs s q k).map Prod.snd)
  else ([], [])

/-- Positions selected by the list comprehension in
`VectorStore.get_metadata`: `[self.metadata[i] for i in indices if i < len(self.metadata)]`.
An index `i ≥ len` fails the guard and is skipped; `0 ≤ i < len` selects
position `i`; a negative `i` with `-len ≤ i` wraps Python-style to
position `len + i`; `i < -len` raises `IndexError` (`none`), which the
method's `except` turns into `[]`. -/
def pyListIdx (len : Nat) : List Int → Option (List Nat)
  | [] => some []
  | i :: rest =>
    if i < (len : Int) then
      if 0 ≤ i then (pyListIdx len rest).map (fun ps => i.toNat :: ps)
      else if 0 ≤ i + (len : Int) then
        (pyListIdx len rest).map (fun ps => (i + (len : Int)).toNat :: ps)
      else none
    else pyListIdx len rest

/-- `VectorStore.get_metadata(indices)`. -/
def VectorStore.get_metadata (s : VectorStore) (indices : List Int) : List Metadata :=
  match pyListIdx s.metadata.length indices with
  | none => []
  | some ps => ps.map (fun p => s.metadata.getD p default)

/-- `np.max` of a distance list (only evaluated on nonempty lists). -/
def listMax : List Rat → Rat
  | [] => 0
  | x :: xs => xs.foldl max x

/-- The `relevance_score` value the retriever loop writes at loop position
`i`: `1 - distances[i] / np.max(distances)` when the maximum is positive,
else `0`; `0` when `distances` is empty.  (The loop index is always in
range of `distances`, since at most `len(distances)` records are
retrieved, so `distances[i]` is total here.) -/
def relevanceScore (distances : List Rat) (i : Nat) : Rat :=
  if distances.isEmpty then 0
  else if 0 < listMax distances then 1 - distances.getD i 0 / listMax distances
  else 0

/-- One iteration of the retriever's scoring loop on record `r` at loop
position `i`: write the `distance` key (`distances[i] if i < len(distances) else 0`)
and the `relevance_score` key. -/
def scoreRecord (r : Metadata) (i : Nat) (distances : List Rat) : Metadata :=
  setKey (setKey r "distance" (Val.num (distances.getD i 0)))
    "relevance_score" (Val.num (relevanceScore distances i))

/-- The retriever's scoring loop `for i, result in enumerate(results)`:
each iteration mutates the store's metadata dict at position `p` in
place. -/
def writeScoresAux : List Metadata → List Nat → List Rat → Nat → List Metadata
  | m, [], _, _ => m
  | m, p :: rest, ds, i =>
      writeScoresAux (m.set p (scoreRecord (m.getD p default) i ds)) rest ds (i + 1)

/-- Body of `Retriever.retrieve_text` after the query has been embedded:
an empty embedding short-circuits to `[]`; otherwise search, project the
indices to metadata positions, mutate those records with distance and
relevance scores, and return them.  The pair's second component is the
store after the in-place mutations. -/
def retrieve_text_core (s : VectorStore) (qe : List Rat) (k : Nat) :
    List Metadata × VectorStore :=
  if qe.isEmpty then ([], s)
  else
    let res := s.search qe k
    match pyListIdx s.metadata.length res.1 with
    | none => ([], s)
    | some ps =>
      let m2 := writeScoresAux s.metadata ps res.2 0
      (ps.map (fun p => m2.getD p default), ⟨s.dimension, s.vecs, m2⟩)

/-- Does a record's `type` field equal `"image"` (`meta.get('type') == 'image'`)? -/
def isImageRec (r : Metadata) : Bool :=
  getKey r "type" == some (Val.str "image")

/-- Body of `Retriever.retrieve_image` after the query has been embedded:
like `retrieve_text_core`, but the retrieved records are filtered by
`meta.get('type') == 'image'` before the scoring loop, which then pairs
the `i`-th surviving record with `distances[i]`. -/
def retrieve_image_core (s : VectorStore) (qe : List Rat) (k : Nat) :
    List Metadata × VectorStore :=
  if qe.isEmpty then ([], s)
  else
    let res := s.search qe k
    match pyListIdx s.metadata.length res.1 with
    | none => ([], s)
    | some ps =>
      let psI := ps.filter (fun p => isImageRec (s.metadata.getD p default))
      let m2 := writeScoresAux s.metadata psI res.2 0
      (psI.map (fun p => m2.getD p default), ⟨s.dimension, s.vecs, m2⟩)

/-- `Retriever`: the shared vector store plus the external text embedder
(a black-box `text → vector` function per the collaborator contract). -/
structure Retriever where
  vector_store : VectorStore
  text_embedder : String → List Rat

/-- `Retriever.retrieve_text(query, k)`; the returned `Retriever` carries
the store state after the in-place metadata mutations. -/
def Retriever.retrieve_text (r : Retriever) (query : String) (k : Nat) :
    List Metadata × Retriever :=
  let rc := retrieve_text_core r.vector_store (r.text_embedder query) k
  (rc.1, ⟨rc.2, r.text_embedder⟩)

/-- `Retriever.retrieve_image(query, k)`; the returned `Retriever` carries
the store state after the in-place metadata mutations. -/
def Retriever.retrieve_image (r : Retriever) (query : String) (k : Nat) :
    List Metadata × Retriever :=
  let rc := retrieve_image_core r.vector_store (r.text_embedder query) k
  (rc.1, ⟨rc.2, r.text_embedder⟩)

/-! ### Helper lemmas -/

theorem foldl_add_nonneg (l : List Rat) (a : Rat) (ha : 0 ≤ a)
    (hl : ∀ x ∈ l, 0 ≤ x) : 0 ≤ l.foldl (· + ·) a := by
  induction l generalizing a with
  | nil => exact ha
  | cons x xs ih =>
    exact ih (a + x) (add_nonneg ha (hl x (List.mem_cons_self x xs)))
      (fun y hy => hl y (List.mem_cons_of_mem x hy))

theorem sqDist_nonneg (q v : List Rat) : 0 ≤ sqDist q v := by
  apply foldl_add_nonneg _ _ le_rfl
  intro x hx
  rcases List.mem_map.1 hx with ⟨p, _, rfl⟩
  exact mul_self_nonneg _

theorem scoredList_length (q : List Rat) (vs : List (List Rat)) (i : Nat) :
    (scoredList q vs i).length = vs.length := by
  induction vs generalizing i with
  | nil => rfl
  | cons v rest ih => simp [scoredList, ih]

theorem scoredList_mem_bounds (q : List Rat) (vs : List (List Rat)) (i : Nat)
    (p : Int × Rat) (hp : p ∈ scoredList q vs i) :
    (i : Int) ≤ p.1 ∧ p.1 < (i : Int) + vs.length := by
  induction vs generalizing i with
  | nil => simp [scoredList] at hp
  | cons v rest ih =>
    simp only [scoredList, List.mem_cons] at hp
    rcases hp with rfl | hp
    · refine ⟨le_rfl, ?_⟩
      simp only [List.length_cons]
      push_cast
      omega
    · rcases ih (i + 1) hp with ⟨h1, h2⟩
      simp only [List.length_cons]
      push_cast at h1 h2 ⊢
      omega

theorem scoredList_mem_snd_nonneg (q : List Rat) (vs : List (List Rat)) (i : Nat)
    (p : Int × Rat) (hp : p ∈ scoredList q vs i) : 0 ≤ p.2 := by
  induction vs generalizing i with
  | nil => simp [scoredList] at hp
  | cons v rest ih =>
    simp only [scoredList, List.mem_cons] at hp
    rcases hp with rfl | hp
    · exact sqDist_nonneg q v
    · exact ih (i + 1) hp

theorem scoredList_fst_nodup (q : List Rat) (vs : List (List Rat)) (i : Nat) :
    ((scoredList q vs i).map Prod.fst).Nodup := by
  induction vs generalizing i with
  | nil => simp [scoredList]
  | cons v rest ih =>
    simp only [scoredList, List.map_cons, List.nodup_cons]
    refine ⟨?_, ih (i + 1)⟩
    intro hmem
    rcases List.mem_map.1 hmem with ⟨p, hp, hfst⟩
    rcases scoredList_mem_bounds q rest (i + 1) p hp with ⟨h1, _⟩
    rw [hfst] at h1
    push_cast at h1
    linarith

theorem sortedScan_sorted (s : VectorStore) (q : List Rat) :
    List.Pairwise pairRel (sortedScan s q) :=
  List.sorted_insertionSort pairRel _

theorem sortedScan_perm (s : VectorStore) (q : List Rat) :
    (sortedScan s q).Perm (scoredList q s.vecs 0) :=
  List.perm_insertionSort pairRel _

theorem sortedScan_length (s : VectorStore) (q : List Rat) :
    (sortedScan s q).length = s.vecs.length := by
  rw [(sortedScan_perm s q).length_eq, scoredList_length]

theorem sortedScan_mem_bounds (s : VectorStore) (q : List Rat) (p : Int × Rat)
    (hp : p ∈ sortedScan s q) : 0 ≤ p.1 ∧ p.1 < (s.vecs.length : Int) := by
  have := scoredList_mem_bounds q s.vecs 0 p ((sortedScan_perm s q).mem_iff.1 hp)
  simpa using this

theorem sortedScan_mem_snd_nonneg (s : VectorStore) (q : List Rat) (p : Int × Rat)
    (hp : p ∈ sortedScan s q) : 0 ≤ p.2 :=
  scoredList_mem_snd_nonneg q s.vecs 0 p ((sortedScan_perm s q).mem_iff.1 hp)

theorem sortedScan_fst_nodup (s : VectorStore) (q : List Rat) :
    ((sortedScan s q).map Prod.fst).Nodup :=
  (((sortedScan_perm s q).map Prod.fst).nodup_iff).2 (scoredList_fst_nodup q s.vecs 0)

theorem foldl_max_mono (l : List Rat) (a b : Rat) (h : a ≤ b) :
    l.foldl max a ≤ l.foldl max b := by
  induction l generalizing a b with
  | nil => exact h
  | cons x xs ih => exact ih _ _ (max_le_max h le_rfl)

theorem le_foldl_max (l : List Rat) (a : Rat) : a ≤ l.foldl max a := by
  induction l generalizing a with
  | nil => exact le_rfl
  | cons x xs ih => exact le_trans (le_max_left a x) (ih (max a x))

theorem mem_le_foldl_max (l : List Rat) (a x : Rat) (hx : x ∈ l) :
    x ≤ l.foldl max a := by
  induction l generalizing a with
  | nil => simp at hx
  | cons y ys ih =>
    rcases List.mem_cons.1 hx with rfl | hx
    · exact le_trans (le_max_right a x) (le_foldl_max ys (max a x))
    · exact ih (max a y) hx

theorem mem_le_listMax (l : List Rat) (x : Rat) (hx : x ∈ l) : x ≤ listMax l := by
  cases l with
  | nil => simp at hx
  | cons y ys =>
    rcases List.mem_cons.1 hx with rfl | hx
    · exact le_foldl_max ys x
    · exact mem_le_foldl_max ys y x hx

theorem listMax_nonneg (l : List Rat) (hl : ∀ x ∈ l, 0 ≤ x) (hne : l ≠ []) :
    0 ≤ listMax l := by
  cases l with
  | nil => exact absurd rfl hne
  | cons y ys =>
    exact le_trans (hl y (List.mem_cons_self y ys)) (mem_le_listMax _ y (List.mem_cons_self y ys))

theorem getD_set_ne (l : List Metadata) (p q : Nat) (v : Metadata) (hpq : p ≠ q) :
    (l.set p v).getD q default = l.getD q default := by
  rw [List.getD_eq_getElem?_getD, List.getD_eq_getElem?_getD, List.getElem?_set_ne hpq]

theorem getD_set_self (l : List Metadata) (p : Nat) (v : Metadata) (hp : p < l.length) :
    (l.set p v).getD p default = v := by
  rw [List.getD_eq_getElem?_getD, List.getElem?_set_self hp]
  rfl

theorem find_key_cons_pos (a : String × Val) (l : List (String × Val)) (q : String)
    (h : (a.1 == q) = true) :
    List.find? (fun p => p.1 == q) (a :: l) = some a :=
  List.find?_cons_of_pos l h

theorem find_key_cons_neg (a : String × Val) (l : List (String × Val)) (q : String)
    (h : (a.1 == q) = false) :
    List.find? (fun p => p.1 == q) (a :: l) = List.find? (fun p => p.1 == q) l :=
  List.find?_cons_of_neg l (by simp [h])

theorem getKey_map_replace_self (r : Metadata) (k : String) (v : Val)
    (h : r.any (fun p => p.1 == k) = true) :
    getKey (r.map (fun p => if p.1 == k then (k, v) else p)) k = some v := by
  induction r with
  | nil => simp at h
  | cons a rest ih =>
    by_cases hk : a.1 = k
    · have hfa : (if (a.1 == k) = true then (k, v) else a) = (k, v) := by
        simp [hk]
      simp only [getKey, List.map_cons, hfa]
      rw [find_key_cons_pos _ _ _ (by simp)]
      rfl
    · have hk2 : (a.1 == k) = false := by simpa using hk
      have hfa : (if (a.1 == k) = true then (k, v) else a) = a := by
        simp [hk2]
      have hrest : rest.any (fun p => p.1 == k) = true := by
        simp only [List.any_cons, hk2, Bool.false_or] at h
        exact h
      simp only [getKey, List.map_cons, hfa]
      rw [find_key_cons_neg _ _ _ hk2]
      exact ih hrest

theorem getKey_map_replace_ne (r : Metadata) (k q : String) (v : Val) (hq : q ≠ k) :
    getKey (r.map (fun p => if p.1 == k then (k, v) else p)) q = getKey r q := by
  induction r with
  | nil => rfl
  | cons a rest ih =>
    by_cases hk : a.1 = k
    · have hfa : (if (a.1 == k) = true then (k, v) else a) = (k, v) := by
        simp [hk]
      have haq : (a.1 == q) = false := by
        simp only [beq_eq_false_iff_ne, ne_eq, hk]
        exact fun hc => hq hc.symm
      have hkq : (k == q) = false := by
        simp only [beq_eq_false_iff_ne, ne_eq]
        exact fun hc => hq hc.symm
      simp only [getKey, List.map_cons, hfa]
      rw [find_key_cons_neg _ _ _ hkq, find_key_cons_neg _ _ _ haq]
      exact ih
    · have hk2 : (a.1 == k) = false := by simpa using hk
      have hfa : (if (a.1 == k) = true then (k, v) else a) = a := by
        simp [hk2]
      by_cases haq : a.1 = q
      · simp only [getKey, List.map_cons, hfa]
        rw [find_key_cons_pos _ _ _ (by simp [haq]), find_key_cons_pos _ _ _ (by simp [haq])]
      · have haq2 : (a.1 == q) = false := by simpa using haq
        simp only [getKey, List.map_cons, hfa]
        rw [find_key_cons_neg _ _ _ haq2, find_key_cons_neg _ _ _ haq2]
        exact ih

theorem getKey_setKey (r : Metadata) (k q : String) (v : Val) :
    getKey (setKey r k v) q = if q = k then some v else getKey r q := by
  unfold setKey
  by_cases hany : r.any (fun p => p.1 == k)
  · rw [if_pos hany]
    by_cases hq : q = k
    · rw [if_pos hq, hq]
      exact getKey_map_replace_self r k v hany
    · rw [if_neg hq]
      exact getKey_map_replace_ne r k q v hq
  · rw [if_neg hany]
    have hnone : r.find? (fun p => p.1 == k) = none := by
      rw [List.find?_eq_none]
      intro x hx
      intro hc
      exact hany (List.any_eq_true.2 ⟨x, hx, hc⟩)
    by_cases hq : q = k
    · rw [if_pos hq, hq]
      unfold getKey
      rw [List.find?_append, hnone]
      simp [List.find?]
    · rw [if_neg hq]
      unfold getKey
      rw [List.find?_append]
      cases hfind : r.find? (fun p => p.1 == q) with
      | some p => simp [hfind]
      | none =>
        have hkq : (k == q) = false := by
          simp only [beq_eq_false_iff_ne, ne_eq]
          exact fun hc => hq hc.symm
        simp [hfind, List.find?, hkq]

/-- Python wrap-around interpretation of an index that passed the
`i < len` guard and does not raise: nonnegative indices address from the
front, negative ones from the back. -/
def pyIdx (len : Nat) (i : Int) : Nat :=
  if 0 ≤ i then i.toNat else (i + (len : Int)).toNat

theorem pyListIdx_all_nonneg (len : Nat) (indices : List Int)
    (h : ∀ i ∈ indices, 0 ≤ i ∧ i < (len : Int)) :
    pyListIdx len indices = some (indices.map Int.toNat) := by
  induction indices with
  | nil => rfl
  | cons i rest ih =>
    rcases h i (List.mem_cons_self i rest) with ⟨h0, hlt⟩
    have hrest := ih (fun j hj => h j (List.mem_cons_of_mem i hj))
    simp only [pyListIdx, if_pos hlt, if_pos h0, hrest, List.map_cons]
    rfl

theorem pyListIdx_no_error (len : Nat) (indices : List Int)
    (h : ∀ i ∈ indices, 0 ≤ i + (len : Int)) :
    pyListIdx len indices =
      some ((indices.filter (fun i => decide (i < (len : Int)))).map (pyIdx len)) := by
  induction indices with
  | nil => rfl
  | cons i rest ih =>
    have hrest := ih (fun j hj => h j (List.mem_cons_of_mem i hj))
    by_cases hlt : i < (len : Int)
    · have hfil : (i :: rest).filter (fun j => decide (j < (len : Int)))
          = i :: rest.filter (fun j => decide (j < (len : Int))) := by
        simp [List.filter_cons, hlt]
      by_cases h0 : 0 ≤ i
      · have hpy : pyIdx len i = i.toNat := by
          rw [pyIdx, if_pos h0]
        simp only [pyListIdx, if_pos hlt, if_pos h0, hrest, hfil, List.map_cons, hpy]
        rfl
      · have hwrap : 0 ≤ i + (len : Int) := h i (List.mem_cons_self i rest)
        have hpy : pyIdx len i = (i + (len : Int)).toNat := by
          rw [pyIdx, if_neg h0]
        simp only [pyListIdx, if_pos hlt, if_neg h0, if_pos hwrap, hrest, hfil,
          List.map_cons, hpy]
        rfl
    · have hfil : (i :: rest).filter (fun j => decide (j < (len : Int)))
          = rest.filter (fun j => decide (j < (len : Int))) := by
        simp [List.filter_cons, hlt]
      simp only [pyListIdx, if_neg hlt, hrest, hfil]

theorem pyListIdx_error (len : Nat) (indices : List Int)
    (h : ∃ i ∈ indices, i + (len : Int) < 0) :
    pyListIdx len indices = none := by
  induction indices with
  | nil => simp at h
  | cons i rest ih =>
    rcases h with ⟨j, hj, hjbad⟩
    rcases List.mem_cons.1 hj with rfl | hj2
    · have hlt : j < (len : Int) := by omega
      have h0 : ¬ (0 ≤ j) := by omega
      have hw : ¬ (0 ≤ j + (len : Int)) := by omega
      simp only [pyListIdx, if_pos hlt, if_neg h0, if_neg hw]
    · have hrest := ih ⟨j, hj2, hjbad⟩
      simp only [pyListIdx, hrest, Option.map_none]
      by_cases hlt : i < (len : Int)
      · by_cases h0 : 0 ≤ i
        · simp [hlt, h0]
        · by_cases hw : 0 ≤ i + (len : Int)
          · simp [hlt, h0, hw]
          · simp [hlt, h0, hw]
      · simp [hlt]

theorem writeScoresAux_length (m : List Metadata) (ps : List Nat) (ds : List Rat) (i : Nat) :
    (writeScoresAux m ps ds i).length = m.length := by
  induction ps generalizing m i with
  | nil => rfl
  | cons p rest ih =>
    simp only [writeScoresAux]
    rw [ih, List.length_set]

theorem writeScoresAux_getD_notMem (m : List Metadata) (ps : List Nat) (ds : List Rat)
    (i : Nat) (q : Nat) (hq : q ∉ ps) :
    (writeScoresAux m ps ds i).getD q default = m.getD q default := by
  induction ps generalizing m i with
  | nil => rfl
  | cons p rest ih =>
    simp only [writeScoresAux]
    rw [ih _ _ (fun hc => hq (List.mem_cons_of_mem p hc)),
      getD_set_ne _ _ _ _ (fun hc => hq (by
        rw [← hc]
        exact List.mem_cons_self p rest))]

/-- The list of records the scoring loop returns, read off against the
pre-loop metadata state (meaningful when the positions are distinct, so
no record is written twice). -/
def mapScored : List Metadata → List Nat → List Rat → Nat → List Metadata
  | _, [], _, _ => []
  | m, p :: rest, ds, i => scoreRecord (m.getD p default) i ds :: mapScored m rest ds (i + 1)

theorem mapScored_length (m : List Metadata) (ps : List Nat) (ds : List Rat) (i : Nat) :
    (mapScored m ps ds i).length = ps.length := by
  induction ps generalizing i with
  | nil => rfl
  | cons p rest ih => simp [mapScored, ih]

theorem mapScored_congr (m1 m2 : List Metadata) (ps : List Nat) (ds : List Rat) (i : Nat)
    (h : ∀ p ∈ ps, m1.getD p default = m2.getD p default) :
    mapScored m1 ps ds i = mapScored m2 ps ds i := by
  induction ps generalizing i with
  | nil => rfl
  | cons p rest ih =>
    simp only [mapScored, h p (List.mem_cons_self p rest)]
    rw [ih _ (fun j hj => h j (List.mem_cons_of_mem p hj))]

theorem mapScored_getD (m : List Metadata) (ps : List Nat) (ds : List Rat) (i j : Nat)
    (hj : j < ps.length) :
    (mapScored m ps ds i).getD j default
      = scoreRecord (m.getD (ps.getD j 0) default) (i + j) ds := by
  induction ps generalizing i j with
  | nil => simp at hj
  | cons p rest ih =>
    cases j with
    | zero => simp [mapScored]
    | succ j2 =>
      have hj2 : j2 < rest.length := by
        simpa using hj
      simp only [mapScored, List.getD_cons_succ]
      rw [ih _ _ hj2]
      ring_nf

theorem mapScored_mem (m : List Metadata) (ps : List Nat) (ds : List Rat) (i : Nat)
    (r : Metadata) (hr : r ∈ mapScored m ps ds i) :
    ∃ p ∈ ps, ∃ j, r = scoreRecord (m.getD p default) j ds := by
  induction ps generalizing i with
  | nil => simp [mapScored] at hr
  | cons p rest ih =>
    simp only [mapScored, List.mem_cons] at hr
    rcases hr with rfl | hr
    · exact ⟨p, List.mem_cons_self p rest, i, rfl⟩
    · rcases ih _ hr with ⟨p2, hp2, j, hj⟩
      exact ⟨p2, List.mem_cons_of_mem p hp2, j, hj⟩

theorem writeScoresAux_map (m : List Metadata) (ps : List Nat) (ds : List Rat) (i : Nat)
    (hnd : ps.Nodup) (hlt : ∀ p ∈ ps, p < m.length) :
    ps.map (fun p => (writeScoresAux m ps ds i).getD p default) = mapScored m ps ds i := by
  induction ps generalizing m i with
  | nil => rfl
  | cons p rest ih =>
    have hpnotin : p ∉ rest := (List.nodup_cons.1 hnd).1
    have hndrest : rest.Nodup := (List.nodup_cons.1 hnd).2
    have hplt : p < m.length := hlt p (List.mem_cons_self p rest)
    simp only [writeScoresAux, List.map_cons, mapScored]
    have hhead : (writeScoresAux (m.set p (scoreRecord (m.getD p default) i ds)) rest ds
        (i + 1)).getD p default = scoreRecord (m.getD p default) i ds := by
      rw [writeScoresAux_getD_notMem _ _ _ _ _ hpnotin, getD_set_self _ _ _ hplt]
    have htail : rest.map (fun q => (writeScoresAux
        (m.set p (scoreRecord (m.getD p default) i ds)) rest ds (i + 1)).getD q default)
        = mapScored m rest ds (i + 1) := by
      rw [ih _ _ hndrest (by
        intro j hj
        rw [List.length_set]
        exact hlt j (List.mem_cons_of_mem p hj))]
      apply mapScored_congr
      intro j hj
      exact getD_set_ne _ _ _ _ (fun hc => hpnotin (hc ▸ hj))
    rw [hhead, htail]

theorem fltMax_eq_pow : fltMax = 2 ^ 128 - 2 ^ 104 := by
  norm_num [fltMax]

theorem fltMax_nonneg : 0 ≤ fltMax := by
  norm_num [fltMax]

theorem search_eq_of_dim (s : VectorStore) (q : List Rat) (k : Nat)
    (hq : q.length = s.dimension) :
    s.search q k = ((searchPairs s q k).map Prod.fst, (searchPairs s q k).map Prod.snd) := by
  rw [VectorStore.search, if_pos hq]

theorem searchPairs_of_le (s : VectorStore) (q : List Rat) (k : Nat)
    (hk : k ≤ s.vecs.length) :
    searchPairs s q k = (sortedScan s q).take k := by
  rw [searchPairs, Nat.sub_eq_zero_of_le hk, List.replicate_zero, List.append_nil]

theorem searchPairs_length (s : VectorStore) (q : List Rat) (k : Nat) :
    (searchPairs s q k).length = k := by
  rw [searchPairs, List.length_append, List.length_take, List.length_replicate,
    sortedScan_length]
  omega

theorem search_fst_length (s : VectorStore) (q : List Rat) (k : Nat)
    (hq : q.length = s.dimension) : (s.search q k).1.length = k := by
  rw [search_eq_of_dim s q k hq]
  simp [searchPairs_length]

theorem search_snd_length (s : VectorStore) (q : List Rat) (k : Nat)
    (hq : q.length = s.dimension) : (s.search q k).2.length = k := by
  rw [search_eq_of_dim s q k hq]
  simp [searchPairs_length]

theorem search_fst_mem_bounds (s : VectorStore) (q : List Rat) (k : Nat)
    (hq : q.length = s.dimension) (hk : k ≤ s.vecs.length) :
    ∀ i ∈ (s.search q k).1, 0 ≤ i ∧ i < (s.vecs.length : Int) := by
  rw [search_eq_of_dim s q k hq, searchPairs_of_le s q k hk]
  intro i hi
  rcases List.mem_map.1 hi with ⟨p, hp, rfl⟩
  exact sortedScan_mem_bounds s q p (List.mem_of_mem_take hp)

theorem search_fst_nodup (s : VectorStore) (q : List Rat) (k : Nat)
    (hq : q.length = s.dimension) (hk : k ≤ s.vecs.length) :
    (s.search q k).1.Nodup := by
  rw [search_eq_of_dim s q k hq, searchPairs_of_le s q k hk]
  simp only [List.map_take]
  exact ((List.take_sublist k _).nodup) (sortedScan_fst_nodup s q)

theorem search_snd_nonneg (s : VectorStore) (q : List Rat) (k : Nat)
    (hq : q.length = s.dimension) :
    ∀ x ∈ (s.search q k).2, 0 ≤ x := by
  rw [search_eq_of_dim s q k hq]
  intro x hx
  rcases List.mem_map.1 hx with ⟨p, hp, rfl⟩
  rw [searchPairs] at hp
  rcases List.mem_append.1 hp with hp | hp
  · exact sortedScan_mem_snd_nonneg s q p (List.mem_of_mem_take hp)
  · rw [List.eq_of_mem_replicate hp]
    exact fltMax_nonneg

theorem search_snd_sorted (s : VectorStore) (q : List Rat) (k : Nat)
    (hq : q.length = s.dimension) (hk : k ≤ s.vecs.length) :
    List.Pairwise (· ≤ ·) (s.search q k).2 := by
  rw [search_eq_of_dim s q k hq, searchPairs_of_le s q k hk]
  have htake : List.Pairwise pairRel ((sortedScan s q).take k) :=
    List.Pairwise.sublist (List.take_sublist k _) (sortedScan_sorted s q)
  refine List.Pairwise.map Prod.snd (fun a b hab => ?_) htake
  have hab2 : a.2 < b.2 ∨ (a.2 = b.2 ∧ a.1 ≤ b.1) := hab
  rcases hab2 with h | ⟨h, _⟩
  · exact le_of_lt h
  · exact le_of_eq h

/-- Positions into the metadata log selected by a clean search (query of the
index dimension, `k ≤ ntotal`). -/
def searchPos (s : VectorStore) (q : List Rat) (k : Nat) : List Nat :=
  ((s.search q k).1).map Int.toNat

theorem searchPos_nodup (s : VectorStore) (q : List Rat) (k : Nat)
    (hq : q.length = s.dimension) (hk : k ≤ s.vecs.length) :
    (searchPos s q k).Nodup := by
  apply List.Nodup.map_on _ (search_fst_nodup s q k hq hk)
  intro x hx y hy hxy
  have hx0 := (search_fst_mem_bounds s q k hq hk x hx).1
  have hy0 := (search_fst_mem_bounds s q k hq hk y hy).1
  omega

theorem searchPos_bounds (s : VectorStore) (q : List Rat) (k : Nat)
    (hq : q.length = s.dimension) (hk : k ≤ s.vecs.length) :
    ∀ p ∈ searchPos s q k, p < s.vecs.length := by
  intro p hp
  rcases List.mem_map.1 hp with ⟨i, hi, rfl⟩
  rcases search_fst_mem_bounds s q k hq hk i hi with ⟨h0, hlt⟩
  omega

theorem searchPos_length (s : VectorStore) (q : List Rat) (k : Nat)
    (hq : q.length = s.dimension) : (searchPos s q k).length = k := by
  rw [searchPos, List.length_map]
  exact search_fst_length s q k hq

theorem isEmpty_false_of_ne_nil (l : List Rat) (h : l ≠ []) : l.isEmpty = false := by
  cases l with
  | nil => exact absurd rfl h
  | cons x xs => rfl

theorem retrieve_text_core_clean (s : VectorStore) (qe : List Rat) (k : Nat)
    (h_inv : s.vecs.length = s.metadata.length) (hq : qe.length = s.dimension)
    (hqne : qe ≠ []) (hk : k ≤ s.vecs.length) :
    retrieve_text_core s qe k =
      (mapScored s.metadata (searchPos s qe k) (s.search qe k).2 0,
       ⟨s.dimension, s.vecs, writeScoresAux s.metadata (searchPos s qe k) (s.search qe k).2 0⟩) := by
  have hpos : pyListIdx s.metadata.length (s.search qe k).1 = some (searchPos s qe k) := by
    rw [← h_inv]
    exact pyListIdx_all_nonneg _ _ (search_fst_mem_bounds s qe k hq hk)
  rw [retrieve_text_core, if_neg (by simp [isEmpty_false_of_ne_nil qe hqne])]
  simp only [hpos]
  rw [writeScoresAux_map s.metadata (searchPos s qe k) _ 0
    (searchPos_nodup s qe k hq hk)
    (fun p hp => h_inv ▸ searchPos_bounds s qe k hq hk p hp)]

theorem isImageRec_default : isImageRec (default : Metadata) = false := rfl

theorem retrieve_image_core_clean (s : VectorStore) (qe : List Rat) (k : Nat)
    (h_inv : s.vecs.length = s.metadata.length) (hq : qe.length = s.dimension)
    (hqne : qe ≠ []) (hk : k ≤ s.vecs.length) :
    retrieve_image_core s qe k =
      (mapScored s.metadata
        ((searchPos s qe k).filter (fun p => isImageRec (s.metadata.getD p default)))
        (s.search qe k).2 0,
       ⟨s.dimension, s.vecs,
        writeScoresAux s.metadata
          ((searchPos s qe k).filter (fun p => isImageRec (s.metadata.getD p default)))
          (s.search qe k).2 0⟩) := by
  have hpos : pyListIdx s.metadata.length (s.search qe k).1 = some (searchPos s qe k) := by
    rw [← h_inv]
    exact pyListIdx_all_nonneg _ _ (search_fst_mem_bounds s qe k hq hk)
  rw [retrieve_image_core, if_neg (by simp [isEmpty_false_of_ne_nil qe hqne])]
  simp only [hpos]
  rw [writeScoresAux_map s.metadata _ _ 0
    ((searchPos_nodup s qe k hq hk).filter _)
    (fun p hp => h_inv ▸ searchPos_bounds s qe k hq hk p (List.mem_of_mem_filter hp))]

theorem retrieve_image_core_no_image (s : VectorStore) (qe : List Rat) (k : Nat)
    (himg : ∀ r ∈ s.metadata, isImageRec r = false) :
    retrieve_image_core s qe k = ([], s) := by
  rw [retrieve_image_core]
  by_cases hqe : qe.isEmpty
  · rw [if_pos hqe]
  · rw [if_neg hqe]
    cases hpos : pyListIdx s.metadata.length (s.search qe k).1 with
    | none => simp only [hpos]
    | some ps =>
      have hfil : ps.filter (fun p => isImageRec (s.metadata.getD p default)) = [] := by
        rw [List.filter_eq_nil_iff]
        intro p _
        simp only [Bool.not_eq_true]
        by_cases hplen : p < s.metadata.length
        · have hmem : s.metadata.getD p default ∈ s.metadata := by
            rw [List.getD_eq_getElem _ _ hplen]
            exact List.getElem_mem hplen
          exact himg _ hmem
        · rw [List.getD_eq_default _ _ (Nat.le_of_not_lt hplen)]
          exact isImageRec_default
      simp only [hpos, hfil]
      rfl

theorem relevanceScore_eq_of_ne_nil (ds : List Rat) (j : Nat) (hne : ds ≠ []) :
    relevanceScore ds j
      = if 0 < listMax ds then 1 - ds.getD j 0 / listMax ds else 0 := by
  rw [relevanceScore, if_neg (by simp [isEmpty_false_of_ne_nil ds hne])]

theorem relevanceScore_nonneg (ds : List Rat) (j : Nat) (hj : j < ds.length)
    (hpos : ∀ x ∈ ds, 0 ≤ x) : 0 ≤ relevanceScore ds j := by
  have hne : ds ≠ [] := by
    intro hc
    rw [hc] at hj
    simp at hj
  rw [relevanceScore_eq_of_ne_nil ds j hne]
  by_cases hM : 0 < listMax ds
  · rw [if_pos hM]
    have hmem : ds.getD j 0 ∈ ds := by
      rw [List.getD_eq_getElem _ _ hj]
      exact List.getElem_mem hj
    have hle : ds.getD j 0 ≤ listMax ds := mem_le_listMax ds _ hmem
    have : ds.getD j 0 / listMax ds ≤ 1 := (div_le_one hM).2 hle
    linarith
  · rw [if_neg hM]

theorem relevanceScore_le_one (ds : List Rat) (j : Nat) (hj : j < ds.length)
    (hpos : ∀ x ∈ ds, 0 ≤ x) : relevanceScore ds j ≤ 1 := by
  have hne : ds ≠ [] := by
    intro hc
    rw [hc] at hj
    simp at hj
  rw [relevanceScore_eq_of_ne_nil ds j hne]
  by_cases hM : 0 < listMax ds
  · rw [if_pos hM]
    have hmem : ds.getD j 0 ∈ ds := by
      rw [List.getD_eq_getElem _ _ hj]
      exact List.getElem_mem hj
    have h0 : 0 ≤ ds.getD j 0 := hpos _ hmem
    have : 0 ≤ ds.getD j 0 / listMax ds := div_nonneg h0 (le_of_lt hM)
    linarith
  · rw [if_neg hM]
    norm_num

theorem relevanceScore_of_max_zero (ds : List Rat) (j : Nat) (h : listMax ds = 0) :
    relevanceScore ds j = 0 := by
  rw [relevanceScore, h]
  by_cases hds : ds.isEmpty
  · rw [if_pos hds]
  · rw [if_neg hds, if_neg (lt_irrefl 0)]

theorem getKey_scoreRecord_distance (r : Metadata) (i : Nat) (ds : List Rat) :
    getKey (scoreRecord r i ds) "distance" = some (Val.num (ds.getD i 0)) := by
  rw [scoreRecord, getKey_setKey, if_neg (by decide), getKey_setKey, if_pos rfl]

theorem getKey_scoreRecord_relevance (r : Metadata) (i : Nat) (ds : List Rat) :
    getKey (scoreRecord r i ds) "relevance_score" = some (Val.num (relevanceScore ds i)) := by
  rw [scoreRecord, getKey_setKey, if_pos rfl]

theorem npMatrixCols_of_uniform (vectors : List (List Rat)) (c : Nat)
    (hne : vectors ≠ []) (h : ∀ v ∈ vectors, v.length = c) :
    npMatrixCols vectors = some c := by
  cases vectors with
  | nil => exact absurd rfl hne
  | cons r rs =>
    have hall : rs.all (fun x => x.length == r.length) = true := by
      rw [List.all_eq_true]
      intro x hx
      rw [beq_iff_eq, h x (List.mem_cons_of_mem r hx), h r (List.mem_cons_self r rs)]
    rw [npMatrixCols, if_pos hall, h r (List.mem_cons_self r rs)]

theorem npMatrixCols_row_length (vectors : List (List Rat)) (c : Nat)
    (h : npMatrixCols vectors = some c) : ∀ v ∈ vectors, v.length = c := by
  cases vectors with
  | nil => simp [npMatrixCols] at h
  | cons r rs =>
    rw [npMatrixCols] at h
    by_cases hall : rs.all (fun x => x.length == r.length) = true
    · rw [if_pos hall, Option.some_inj] at h
      intro v hv
      rcases List.mem_cons.1 hv with rfl | hv2
      · exact h
      · have := (List.all_eq_true.1 hall) v hv2
        rw [beq_iff_eq] at this
        rw [this, h]
    · rw [if_neg hall] at h
      exact absurd h (by simp)

/-! ### Concrete fixtures used by witnesses and counterexamples -/

/-- A text metadata record. -/
def recText1 : Metadata := [("type", Val.str "text"), ("text", Val.str "cat")]

/-- A second text metadata record. -/
def recText2 : Metadata := [("type", Val.str "text"), ("text", Val.str "dog")]

/-- An image metadata record. -/
def recImage1 : Metadata := [("type", Val.str "image"), ("source", Val.str "img.png")]

/-! ### Claim theorems -/

/-- C1: positional-alignment invariant.  For every store satisfying the
alignment invariant and every `add_vectors` call with
`len(vectors) == len(metadata_list)` and every vector of the store
dimension, afterwards the index vector count equals the metadata-log
length, both logs are extended append-only (old entries preserved,
in order), and the i-th stored vector is paired with the i-th metadata
record (the zipped log is the old pairing followed by the new pairs). -/
theorem C1_positional_alignment (s : VectorStore) (d : Disk)
    (vectors : List (List Rat)) (metadata_list : List Metadata)
    (h_len : vectors.length = metadata_list.length)
    (h_dim : ∀ v ∈ vectors, v.length = s.dimension)
    (h_inv : s.vecs.length = s.metadata.length) :
    (s.add_vectors d vectors metadata_list).1.get_total_vectors
        = (s.add_vectors d vectors metadata_list).1.metadata.length ∧
    (s.add_vectors d vectors metadata_list).1.vecs = s.vecs ++ vectors ∧
    (s.add_vectors d vectors metadata_list).1.metadata = s.metadata ++ metadata_list ∧
    (s.add_vectors d vectors metadata_list).1.vecs.zip
        (s.add_vectors d vectors metadata_list).1.metadata
      = s.vecs.zip s.metadata ++ vectors.zip metadata_list := by
  have hmain : (s.add_vectors d vectors metadata_list).1.vecs = s.vecs ++ vectors ∧
      (s.add_vectors d vectors metadata_list).1.metadata = s.metadata ++ metadata_list := by
    cases hv : vectors with
    | nil =>
      have hml : metadata_list = [] := by
        rw [hv] at h_len
        exact List.eq_nil_of_length_eq_zero h_len.symm
      subst hml
      simp [VectorStore.add_vectors, npMatrixCols]
    | cons r rs =>
      have hcols : npMatrixCols vectors = some s.dimension := by
        apply npMatrixCols_of_uniform vectors s.dimension (by rw [hv]; simp) h_dim
      rw [← hv]
      simp only [VectorStore.add_vectors, hcols]
      simp
  refine ⟨?_, hmain.1, hmain.2, ?_⟩
  · rw [VectorStore.get_total_vectors, hmain.1, hmain.2, List.length_append,
      List.length_append, h_inv, h_len]
  · rw [hmain.1, hmain.2, List.zip_append h_inv]

/-- C1 witness: a concrete aligned store, a valid one-vector batch. -/
theorem C1_witness :
    ([[(7 : Rat)]].length = [recText2].length) ∧
    (∀ v ∈ [[(7 : Rat)]], v.length = (⟨1, [[5]], [recText1]⟩ : VectorStore).dimension) ∧
    ((⟨1, [[5]], [recText1]⟩ : VectorStore).vecs.length
        = (⟨1, [[5]], [recText1]⟩ : VectorStore).metadata.length) ∧
    ((VectorStore.add_vectors ⟨1, [[5]], [recText1]⟩ ⟨none, none⟩
        [[(7 : Rat)]] [recText2]).1.get_total_vectors
      = (VectorStore.add_vectors ⟨1, [[5]], [recText1]⟩ ⟨none, none⟩
        [[(7 : Rat)]] [recText2]).1.metadata.length ∧
    (VectorStore.add_vectors ⟨1, [[5]], [recText1]⟩ ⟨none, none⟩
        [[(7 : Rat)]] [recText2]).1.vecs = [[5]] ++ [[(7 : Rat)]] ∧
    (VectorStore.add_vectors ⟨1, [[5]], [recText1]⟩ ⟨none, none⟩
        [[(7 : Rat)]] [recText2]).1.metadata = [recText1] ++ [recText2] ∧
    (VectorStore.add_vectors ⟨1, [[5]], [recText1]⟩ ⟨none, none⟩
        [[(7 : Rat)]] [recText2]).1.vecs.zip
        (VectorStore.add_vectors ⟨1, [[5]], [recText1]⟩ ⟨none, none⟩
        [[(7 : Rat)]] [recText2]).1.metadata
      = [[(5 : Rat)]].zip [recText1] ++ [[(7 : Rat)]].zip [recText2]) :=
  ⟨by decide, by decide, by decide,
    C1_positional_alignment ⟨1, [[5]], [recText1]⟩ ⟨none, none⟩ [[(7 : Rat)]] [recText2]
      (by decide) (by decide) (by decide)⟩

/-- C2 counterexample: on an empty store of dimension 1, `search([0], 1)`
does not return `([], [])` — FAISS fills the requested slot with the
padding pair `(-1, FLT_MAX)`. -/
theorem C2_counterexample :
    VectorStore.search ⟨1, [], []⟩ [(0 : Rat)] 1 ≠ ([], []) ∧
    VectorStore.search ⟨1, [], []⟩ [(0 : Rat)] 1 = ([-1], [fltMax]) := by
  constructor
  · decide
  · decide

/-- C2 amended: `search(q, k)` on an empty store (with `q` of the store
dimension) returns `k` padding pairs — indices all `-1`, distances all
`FLT_MAX` — not `([], [])`; the pair `([], [])` only arises from the
dimension-mismatch error path. -/
theorem C2_amended (s : VectorStore) (q : List Rat) (k : Nat)
    (h_empty : s.vecs = []) (hq : q.length = s.dimension) :
    s.search q k = (List.replicate k (-1), List.replicate k fltMax) := by
  rw [search_eq_of_dim s q k hq]
  have hscan : sortedScan s q = [] := by
    rw [sortedScan, h_empty]
    rfl
  rw [searchPairs, hscan, h_empty]
  simp [List.map_replicate]

/-- C2 witness: the amended statement at the empty store of dimension 1,
query `[0]`, `k = 2`. -/
theorem C2_amended_witness :
    (⟨1, [], []⟩ : VectorStore).vecs = [] ∧
    [(0 : Rat)].length = (⟨1, [], []⟩ : VectorStore).dimension ∧
    VectorStore.search ⟨1, [], []⟩ [(0 : Rat)] 2
      = (List.replicate 2 (-1), List.replicate 2 fltMax) :=
  ⟨rfl, rfl, C2_amended ⟨1, [], []⟩ [(0 : Rat)] 2 rfl rfl⟩

/-- C3 counterexample: adding 3 vectors with a metadata list of length 2
to an empty store is not rejected — afterwards `get_total_vectors()` is 3,
not 0, and the metadata log has length 2 (alignment broken). -/
theorem C3_counterexample :
    (VectorStore.get_total_vectors ⟨1, [], []⟩) = 0 ∧
    ((VectorStore.add_vectors ⟨1, [], []⟩ ⟨none, none⟩ [[1], [2], [3]]
      [recText1, recText2]).1).get_total_vectors = 3 ∧
    ((VectorStore.add_vectors ⟨1, [], []⟩ ⟨none, none⟩ [[1], [2], [3]]
      [recText1, recText2]).1).metadata.length = 2 := by
  refine ⟨rfl, ?_, ?_⟩
  · decide
  · decide

/-- C3 amended: `add_vectors` performs no length-match validation.
Whenever the vectors form a valid matrix of the store dimension, the call
appends all vectors to the index and all metadata records to the log,
regardless of whether the two lengths agree; the vector count grows by
`len(vectors)`, not by `len(metadata_list)`. -/
theorem C3_amended (s : VectorStore) (d : Disk) (vectors : List (List Rat))
    (metadata_list : List Metadata)
    (h_c : npMatrixCols vectors = some s.dimension) :
    (s.add_vectors d vectors metadata_list).1
        = ⟨s.dimension, s.vecs ++ vectors, s.metadata ++ metadata_list⟩ ∧
    (s.add_vectors d vectors metadata_list).1.get_total_vectors
        = s.get_total_vectors + vectors.length := by
  have h1 : (s.add_vectors d vectors metadata_list).1
      = ⟨s.dimension, s.vecs ++ vectors, s.metadata ++ metadata_list⟩ := by
    simp only [VectorStore.add_vectors, h_c]
    simp
  refine ⟨h1, ?_⟩
  rw [h1, VectorStore.get_total_vectors, VectorStore.get_total_vectors, List.length_append]

/-- C3 witness: the amended statement at the spec scenario (3 vectors,
2 metadata records, empty store of dimension 1). -/
theorem C3_amended_witness :
    npMatrixCols [[(1 : Rat)], [2], [3]] = some (⟨1, [], []⟩ : VectorStore).dimension ∧
    (VectorStore.add_vectors ⟨1, [], []⟩ ⟨none, none⟩ [[(1 : Rat)], [2], [3]]
        [recText1, recText2]).1
      = ⟨1, [] ++ [[(1 : Rat)], [2], [3]], [] ++ [recText1, recText2]⟩ ∧
    (VectorStore.add_vectors ⟨1, [], []⟩ ⟨none, none⟩ [[(1 : Rat)], [2], [3]]
        [recText1, recText2]).1.get_total_vectors
      = (⟨1, [], []⟩ : VectorStore).get_total_vectors + [[(1 : Rat)], [2], [3]].length :=
  ⟨by decide,
    (C3_amended ⟨1, [], []⟩ ⟨none, none⟩ [[(1 : Rat)], [2], [3]]
      [recText1, recText2] (by decide)).1,
    (C3_amended ⟨1, [], []⟩ ⟨none, none⟩ [[(1 : Rat)], [2], [3]]
      [recText1, recText2] (by decide)).2⟩

/-- C6 counterexample: adding a vector of length 1 to a store of
dimension 2 does not raise to the caller — the `Bool` component of the
call (did an exception propagate) is `false`, the call returns as if
successful; the store is unchanged. -/
theorem C6_counterexample :
    (VectorStore.add_vectors ⟨2, [], []⟩ ⟨none, none⟩ [[(1 : Rat)]] [recText1]).2.2 = false ∧
    (VectorStore.add_vectors ⟨2, [], []⟩ ⟨none, none⟩ [[(1 : Rat)]] [recText1]).1
      = ⟨2, [], []⟩ := by
  constructor
  · decide
  · decide

/-- C6 amended: when some vector's length differs from the store
dimension, the FAISS/numpy error is caught inside `add_vectors` and only
logged — no exception reaches the caller (the call returns normally) —
and the store and the on-disk artifacts are completely unchanged. -/
theorem C6_amended (s : VectorStore) (d : Disk) (vectors : List (List Rat))
    (metadata_list : List Metadata)
    (h : ∃ v ∈ vectors, v.length ≠ s.dimension) :
    s.add_vectors d vectors metadata_list = (s, d, false) := by
  rcases h with ⟨v, hv, hne⟩
  cases hcols : npMatrixCols vectors with
  | none => simp only [VectorStore.add_vectors, hcols]
  | some c =>
    have hvc : v.length = c := npMatrixCols_row_length vectors c hcols v hv
    have hcdim : ¬ (c = s.dimension) := by
      rw [← hvc]
      exact hne
    simp only [VectorStore.add_vectors, hcols]
    rw [if_neg hcdim]

/-- C6 witness: the amended statement at a dimension-2 store and a
length-1 vector. -/
theorem C6_amended_witness :
    (∃ v ∈ [[(1 : Rat)]], v.length ≠ (⟨2, [], []⟩ : VectorStore).dimension) ∧
    VectorStore.add_vectors ⟨2, [], []⟩ ⟨none, none⟩ [[(1 : Rat)]] [recText1]
      = (⟨2, [], []⟩, ⟨none, none⟩, false) :=
  ⟨by decide,
    C6_amended ⟨2, [], []⟩ ⟨none, none⟩ [[(1 : Rat)]] [recText1] (by decide)⟩

/-- C7: persistence round-trip.  After a valid batch is added (and thereby
synchronously persisted), reconstructing a store from the same two
artifacts yields the same vector count and the identical metadata log, in
order. -/
theorem C7_round_trip (s : VectorStore) (d : Disk) (vectors : List (List Rat))
    (metadata_list : List Metadata)
    (h_c : npMatrixCols vectors = some s.dimension)
    (h_len : vectors.length = metadata_list.length) :
    (VectorStore.init_index s.dimension
        (s.add_vectors d vectors metadata_list).2.1).get_total_vectors
      = (s.add_vectors d vectors metadata_list).1.get_total_vectors ∧
    (VectorStore.init_index s.dimension
        (s.add_vectors d vectors metadata_list).2.1).metadata
      = (s.add_vectors d vectors metadata_list).1.metadata := by
  simp only [VectorStore.add_vectors, h_c]
  simp only [if_pos]
  exact ⟨rfl, rfl⟩

/-- C7 witness: a concrete valid batch round-trips. -/
theorem C7_round_trip_witness :
    npMatrixCols [[(7 : Rat)]] = some (⟨1, [[5]], [recText1]⟩ : VectorStore).dimension ∧
    [[(7 : Rat)]].length = [recText2].length ∧
    (VectorStore.init_index 1
        (VectorStore.add_vectors ⟨1, [[5]], [recText1]⟩ ⟨none, none⟩
          [[(7 : Rat)]] [recText2]).2.1).get_total_vectors
      = (VectorStore.add_vectors ⟨1, [[5]], [recText1]⟩ ⟨none, none⟩
          [[(7 : Rat)]] [recText2]).1.get_total_vectors ∧
    (VectorStore.init_index 1
        (VectorStore.add_vectors ⟨1, [[5]], [recText1]⟩ ⟨none, none⟩
          [[(7 : Rat)]] [recText2]).2.1).metadata
      = (VectorStore.add_vectors ⟨1, [[5]], [recText1]⟩ ⟨none, none⟩
          [[(7 : Rat)]] [recText2]).1.metadata :=
  ⟨by decide, by decide,
    (C7_round_trip ⟨1, [[5]], [recText1]⟩ ⟨none, none⟩ [[(7 : Rat)]] [recText2]
      (by decide) (by decide)).1,
    (C7_round_trip ⟨1, [[5]], [recText1]⟩ ⟨none, none⟩ [[(7 : Rat)]] [recText2]
      (by decide) (by decide)).2⟩

/-- C4 counterexample: a store with one vector, searched with `k = 2`,
returns 2 result pairs, not `total_count() = 1` pairs — the second pair
is the padding `(-1, FLT_MAX)`. -/
theorem C4_counterexample :
    (VectorStore.get_total_vectors ⟨1, [[0]], [recText1]⟩) = 1 ∧
    ((VectorStore.search ⟨1, [[0]], [recText1]⟩ [(0 : Rat)] 2).1).length = 2 ∧
    (VectorStore.search ⟨1, [[0]], [recText1]⟩ [(0 : Rat)] 2).1 = [0, -1] := by
  refine ⟨rfl, ?_, ?_⟩
  · decide
  · decide

/-- C4 amended: for `k` greater than the vector count `n > 0` (and a query
of the store dimension), `search(q, k)` returns exactly `k` pairs: the
first `n` carry the valid indices (all in `[0, n)`) with their distances
sorted ascending, and the remaining `k - n` are padding pairs with index
`-1` and distance `FLT_MAX`. -/
theorem C4_amended (s : VectorStore) (q : List Rat) (k : Nat)
    (hq : q.length = s.dimension) (hn : 0 < s.vecs.length) (hk : s.vecs.length < k) :
    (s.search q k).1.length = k ∧
    (s.search q k).2.length = k ∧
    List.Pairwise (· ≤ ·) ((s.search q k).2.take s.vecs.length) ∧
    (s.search q k).2.drop s.vecs.length = List.replicate (k - s.vecs.length) fltMax ∧
    (s.search q k).1.drop s.vecs.length = List.replicate (k - s.vecs.length) (-1) ∧
    (∀ i ∈ (s.search q k).1.take s.vecs.length, 0 ≤ i ∧ i < (s.vecs.length : Int)) := by
  have hsp : searchPairs s q k
      = sortedScan s q ++ List.replicate (k - s.vecs.length) (-1, fltMax) := by
    rw [searchPairs, List.take_of_length_le (by rw [sortedScan_length]; omega)]
  have hlenf : ((sortedScan s q).map Prod.fst).length = s.vecs.length := by
    rw [List.length_map, sortedScan_length]
  have hlens : ((sortedScan s q).map Prod.snd).length = s.vecs.length := by
    rw [List.length_map, sortedScan_length]
  rw [search_eq_of_dim s q k hq, hsp]
  simp only [List.map_append]
  refine ⟨?_, ?_, ?_, ?_, ?_, ?_⟩
  · rw [List.length_append, hlenf, List.length_map, List.length_replicate]
    omega
  · rw [List.length_append, hlens, List.length_map, List.length_replicate]
    omega
  · rw [← hlens, List.take_left]
    refine List.Pairwise.map Prod.snd (fun a b hab => ?_) (sortedScan_sorted s q)
    have hab2 : a.2 < b.2 ∨ (a.2 = b.2 ∧ a.1 ≤ b.1) := hab
    rcases hab2 with h | ⟨h, _⟩
    · exact le_of_lt h
    · exact le_of_eq h
  · rw [← hlens, List.drop_left, List.map_replicate]
  · rw [← hlenf, List.drop_left, List.map_replicate]
  · rw [← hlenf, List.take_left, hlenf]
    intro i hi
    rcases List.mem_map.1 hi with ⟨p, hp, rfl⟩
    exact sortedScan_mem_bounds s q p hp

/-- C4 witness: the amended statement at a one-vector store with `k = 2`. -/
theorem C4_amended_witness :
    [(0 : Rat)].length = (⟨1, [[0]], [recText1]⟩ : VectorStore).dimension ∧
    0 < (⟨1, [[0]], [recText1]⟩ : VectorStore).vecs.length ∧
    (⟨1, [[0]], [recText1]⟩ : VectorStore).vecs.length < 2 ∧
    ((VectorStore.search ⟨1, [[0]], [recText1]⟩ [(0 : Rat)] 2).1.length = 2 ∧
    (VectorStore.search ⟨1, [[0]], [recText1]⟩ [(0 : Rat)] 2).2.length = 2 ∧
    List.Pairwise (· ≤ ·) ((VectorStore.search ⟨1, [[0]], [recText1]⟩ [(0 : Rat)] 2).2.take
      (⟨1, [[0]], [recText1]⟩ : VectorStore).vecs.length) ∧
    (VectorStore.search ⟨1, [[0]], [recText1]⟩ [(0 : Rat)] 2).2.drop
        (⟨1, [[0]], [recText1]⟩ : VectorStore).vecs.length
      = List.replicate (2 - (⟨1, [[0]], [recText1]⟩ : VectorStore).vecs.length) fltMax ∧
    (VectorStore.search ⟨1, [[0]], [recText1]⟩ [(0 : Rat)] 2).1.drop
        (⟨1, [[0]], [recText1]⟩ : VectorStore).vecs.length
      = List.replicate (2 - (⟨1, [[0]], [recText1]⟩ : VectorStore).vecs.length) (-1) ∧
    (∀ i ∈ (VectorStore.search ⟨1, [[0]], [recText1]⟩ [(0 : Rat)] 2).1.take
        (⟨1, [[0]], [recText1]⟩ : VectorStore).vecs.length,
      0 ≤ i ∧ i < ((⟨1, [[0]], [recText1]⟩ : VectorStore).vecs.length : Int))) :=
  ⟨rfl, by decide, by decide,
    C4_amended ⟨1, [[0]], [recText1]⟩ [(0 : Rat)] 2 rfl (by decide) (by decide)⟩

/-- C5 counterexample: on a store with two metadata records, the negative
index `-1` is not skipped: `get_metadata([-1])` returns the last record
(Python wrap-around), so a record is returned for an index outside
`[0, stored count)`. -/
theorem C5_counterexample :
    VectorStore.get_metadata ⟨1, [[1], [2]], [recText1, recText2]⟩ [-1] = [recText2] ∧
    ¬ (0 ≤ (-1 : Int)) := by
  constructor
  · decide
  · decide

/-- C5 amended: `get_metadata(indices)` skips exactly the indices
`i ≥ len(metadata)`; an index `-len ≤ i < len` is kept and a negative one
resolves Python-style to position `len + i`; and whenever some index is
below `-len`, the raised `IndexError` is caught and the whole call
returns `[]`. -/
theorem C5_amended (s : VectorStore) (indices : List Int) :
    ((∀ i ∈ indices, 0 ≤ i + (s.metadata.length : Int)) →
      s.get_metadata indices
        = ((indices.filter (fun i => decide (i < (s.metadata.length : Int)))).map
            (fun i => s.metadata.getD (pyIdx s.metadata.length i) default))) ∧
    ((∃ i ∈ indices, i + (s.metadata.length : Int) < 0) →
      s.get_metadata indices = []) := by
  constructor
  · intro h
    simp only [VectorStore.get_metadata, pyListIdx_no_error _ _ h]
    rw [List.map_map]
    rfl
  · intro h
    simp only [VectorStore.get_metadata, pyListIdx_error _ _ h]

/-- C5 witness: the amended statement at indices `[0, 5, -1]` on a
two-record store — `0` is kept, `5` is skipped, `-1` wraps to the last
record. -/
theorem C5_amended_witness :
    (∀ i ∈ [(0 : Int), 5, -1],
      0 ≤ i + ((⟨1, [[1], [2]], [recText1, recText2]⟩ : VectorStore).metadata.length : Int)) ∧
    VectorStore.get_metadata ⟨1, [[1], [2]], [recText1, recText2]⟩ [0, 5, -1]
      = [recText1, recText2] := by
  refine ⟨by decide, ?_⟩
  rw [(C5_amended ⟨1, [[1], [2]], [recText1, recText2]⟩ [0, 5, -1]).1 (by decide)]
  decide

/-- Fixture retriever: aligned two-vector store (one text record, one
image record at squared distances 0 and 4 from the query embedding) with
a constant external embedder. -/
def retrMixed : Retriever :=
  ⟨⟨1, [[0], [2]], [recText1, recImage1]⟩, fun _ => [0]⟩

/-- C8 counterexample: `retrieve_image` on `retrMixed` with `k = 2`
returns exactly one record, whose written `distance` is `0` (the first
overall search distance — not the image record's own distance, 4) and
whose `relevance_score` is `1`.  The maximum distance in the returned
result set is therefore `0`, yet the score is `1`, not `0` as the claim's
degenerate clause requires; under the claim's formula
`1 - distance / max-distance-in-result-set` no reading yields `1`. -/
theorem C8_counterexample :
    ((retrMixed.retrieve_image "q" 2).1.map (fun rec => getKey rec "distance"))
      = [some (Val.num 0)] ∧
    ((retrMixed.retrieve_image "q" 2).1.map (fun rec => getKey rec "relevance_score"))
      = [some (Val.num 1)] := by
  have h : (retrMixed.retrieve_image "q" 2).1
      = (retrieve_image_core ⟨1, [[0], [2]], [recText1, recImage1]⟩ [(0 : Rat)] 2).1 := rfl
  rw [h]
  norm_num [retrieve_image_core, VectorStore.search, searchPairs, sortedScan, scoredList,
    sqDist, List.insertionSort, List.orderedInsert, pairRel, pyListIdx, writeScoresAux,
    scoreRecord, setKey, getKey, relevanceScore, listMax, isImageRec, fltMax,
    recText1, recImage1]
  decide

/-- C8 amended: for `retrieve_text` on an aligned store with a valid
query embedding and `k ≤ total_count()`, each returned record's
`relevance_score` equals `1 - d_j / M` where `d_j` is the distance at the
record's position in the k-slot distance list returned by the underlying
search and `M` is the maximum of that whole list (not of the returned
result set), with `0` substituted when `M = 0` (or the list is empty);
every such score lies in `[0, 1]`, and the record's written `distance`
key is `d_j`.  (For `retrieve_image`, the same loop pairs the `i`-th
surviving record with the `i`-th overall distance, so the written
`distance` need not be the record's own — see the counterexample.) -/
theorem C8_amended (r : Retriever) (query : String) (k : Nat)
    (h_inv : r.vector_store.vecs.length = r.vector_store.metadata.length)
    (hq : (r.text_embedder query).length = r.vector_store.dimension)
    (hqne : r.text_embedder query ≠ [])
    (hk : k ≤ r.vector_store.vecs.length) :
    (r.retrieve_text query k).1.length = k ∧
    (∀ j, j < k →
      getKey ((r.retrieve_text query k).1.getD j default) "distance"
        = some (Val.num
            ((r.vector_store.search (r.text_embedder query) k).2.getD j 0)) ∧
      getKey ((r.retrieve_text query k).1.getD j default) "relevance_score"
        = some (Val.num
            (relevanceScore (r.vector_store.search (r.text_embedder query) k).2 j)) ∧
      relevanceScore (r.vector_store.search (r.text_embedder query) k).2 j
        = (if 0 < listMax (r.vector_store.search (r.text_embedder query) k).2
           then 1 - (r.vector_store.search (r.text_embedder query) k).2.getD j 0
              / listMax (r.vector_store.search (r.text_embedder query) k).2
           else 0) ∧
      0 ≤ relevanceScore (r.vector_store.search (r.text_embedder query) k).2 j ∧
      relevanceScore (r.vector_store.search (r.text_embedder query) k).2 j ≤ 1 ∧
      (listMax (r.vector_store.search (r.text_embedder query) k).2 = 0 →
        relevanceScore (r.vector_store.search (r.text_embedder query) k).2 j = 0)) := by
  have hres : (r.retrieve_text query k).1
      = mapScored r.vector_store.metadata
          (searchPos r.vector_store (r.text_embedder query) k)
          (r.vector_store.search (r.text_embedder query) k).2 0 := by
    show (retrieve_text_core r.vector_store (r.text_embedder query) k).1 = _
    rw [retrieve_text_core_clean r.vector_store (r.text_embedder query) k h_inv hq hqne hk]
  have hdsl : (r.vector_store.search (r.text_embedder query) k).2.length = k :=
    search_snd_length r.vector_store (r.text_embedder query) k hq
  have hdsnn : ∀ x ∈ (r.vector_store.search (r.text_embedder query) k).2, 0 ≤ x :=
    search_snd_nonneg r.vector_store (r.text_embedder query) k hq
  constructor
  · rw [hres, mapScored_length, searchPos_length r.vector_store (r.text_embedder query) k hq]
  · intro j hj
    have hjlen : j < (searchPos r.vector_store (r.text_embedder query) k).length := by
      rw [searchPos_length r.vector_store (r.text_embedder query) k hq]
      exact hj
    have hjds : j < (r.vector_store.search (r.text_embedder query) k).2.length := by
      rw [hdsl]
      exact hj
    have hdne : (r.vector_store.search (r.text_embedder query) k).2 ≠ [] := by
      intro hc
      rw [hc] at hjds
      simp at hjds
    have hgd : (r.retrieve_text query k).1.getD j default
        = scoreRecord
            (r.vector_store.metadata.getD
              ((searchPos r.vector_store (r.text_embedder query) k).getD j 0) default)
            j (r.vector_store.search (r.text_embedder query) k).2 := by
      rw [hres, mapScored_getD _ _ _ _ _ hjlen, Nat.zero_add]
    refine ⟨?_, ?_, ?_, ?_, ?_, ?_⟩
    · rw [hgd, getKey_scoreRecord_distance]
    · rw [hgd, getKey_scoreRecord_relevance]
    · exact relevanceScore_eq_of_ne_nil _ j hdne
    · exact relevanceScore_nonneg _ j hjds hdsnn
    · exact relevanceScore_le_one _ j hjds hdsnn
    · intro hmax
      exact relevanceScore_of_max_zero _ j hmax

/-- Fixture retriever: aligned two-vector all-text store with a constant
external embedder. -/
def retrTwoText : Retriever :=
  ⟨⟨1, [[0], [3]], [recText1, recText2]⟩, fun _ => [0]⟩

/-- C8 witness: the amended statement at `retrTwoText`, query `"q"`,
`k = 2`. -/
theorem C8_amended_witness :
    (retrTwoText.vector_store.vecs.length = retrTwoText.vector_store.metadata.length) ∧
    ((retrTwoText.text_embedder "q").length = retrTwoText.vector_store.dimension) ∧
    (retrTwoText.text_embedder "q" ≠ []) ∧
    (2 ≤ retrTwoText.vector_store.vecs.length) ∧
    ((retrTwoText.retrieve_text "q" 2).1.length = 2 ∧
    (∀ j, j < 2 →
      getKey ((retrTwoText.retrieve_text "q" 2).1.getD j default) "distance"
        = some (Val.num
            ((retrTwoText.vector_store.search (retrTwoText.text_embedder "q") 2).2.getD j 0)) ∧
      getKey ((retrTwoText.retrieve_text "q" 2).1.getD j default) "relevance_score"
        = some (Val.num
            (relevanceScore (retrTwoText.vector_store.search
              (retrTwoText.text_embedder "q") 2).2 j)) ∧
      relevanceScore (retrTwoText.vector_store.search (retrTwoText.text_embedder "q") 2).2 j
        = (if 0 < listMax (retrTwoText.vector_store.search (retrTwoText.text_embedder "q") 2).2
           then 1 - (retrTwoText.vector_store.search
                (retrTwoText.text_embedder "q") 2).2.getD j 0
              / listMax (retrTwoText.vector_store.search (retrTwoText.text_embedder "q") 2).2
           else 0) ∧
      0 ≤ relevanceScore (retrTwoText.vector_store.search
            (retrTwoText.text_embedder "q") 2).2 j ∧
      relevanceScore (retrTwoText.vector_store.search
            (retrTwoText.text_embedder "q") 2).2 j ≤ 1 ∧
      (listMax (retrTwoText.vector_store.search (retrTwoText.text_embedder "q") 2).2 = 0 →
        relevanceScore (retrTwoText.vector_store.search
            (retrTwoText.text_embedder "q") 2).2 j = 0))) :=
  ⟨by decide, by decide, by decide, by decide,
    C8_amended retrTwoText "q" 2 (by decide) (by decide) (by decide) (by decide)⟩

/-- C9: modality filtering is applied after the top-k search.  In general
the returned list is exactly the image-typed subset of the top-k
retrieved records (scored in filtered order); the underlying search
still fills all `k` slots; and on a store whose records are all non-image
(e.g. only text records), `retrieve_image` returns the empty list and
leaves the store unchanged. -/
theorem C9_post_filter_modality (r : Retriever) (query : String) (k : Nat)
    (h_inv : r.vector_store.vecs.length = r.vector_store.metadata.length)
    (hq : (r.text_embedder query).length = r.vector_store.dimension)
    (hqne : r.text_embedder query ≠ [])
    (hk : k ≤ r.vector_store.vecs.length) :
    (r.retrieve_image query k).1
      = mapScored r.vector_store.metadata
          ((searchPos r.vector_store (r.text_embedder query) k).filter
            (fun p => isImageRec (r.vector_store.metadata.getD p default)))
          (r.vector_store.search (r.text_embedder query) k).2 0 ∧
    (r.vector_store.search (r.text_embedder query) k).1.length = k ∧
    ((∀ m ∈ r.vector_store.metadata, isImageRec m = false) →
      (r.retrieve_image query k).1 = [] ∧
      (r.retrieve_image query k).2.vector_store = r.vector_store) := by
  refine ⟨?_, search_fst_length r.vector_store (r.text_embedder query) k hq, ?_⟩
  · show (retrieve_image_core r.vector_store (r.text_embedder query) k).1 = _
    rw [retrieve_image_core_clean r.vector_store (r.text_embedder query) k h_inv hq hqne hk]
  · intro himg
    have hcore := retrieve_image_core_no_image r.vector_store (r.text_embedder query) k himg
    constructor
    · show (retrieve_image_core r.vector_store (r.text_embedder query) k).1 = []
      rw [hcore]
    · show (retrieve_image_core r.vector_store (r.text_embedder query) k).2 = r.vector_store
      rw [hcore]

/-- Fixture retriever: the spec scenario store — five text vectors, no
image records — with a constant external embedder. -/
def retrFiveText : Retriever :=
  ⟨⟨1, [[0], [1], [2], [3], [4]],
    [recText1, recText1, recText1, recText1, recText1]⟩, fun _ => [0]⟩

/-- C9 witness: the theorem at the spec scenario (5 text vectors,
`k = 5`): the filter of the top-5 positions is empty, the search filled
all 5 slots, and `retrieve_image` returns `[]` with the store unchanged. -/
theorem C9_post_filter_modality_witness :
    (retrFiveText.vector_store.vecs.length = retrFiveText.vector_store.metadata.length) ∧
    ((retrFiveText.text_embedder "pic").length = retrFiveText.vector_store.dimension) ∧
    (retrFiveText.text_embedder "pic" ≠ []) ∧
    (5 ≤ retrFiveText.vector_store.vecs.length) ∧
    ((retrFiveText.retrieve_image "pic" 5).1
      = mapScored retrFiveText.vector_store.metadata
          ((searchPos retrFiveText.vector_store (retrFiveText.text_embedder "pic") 5).filter
            (fun p => isImageRec (retrFiveText.vector_store.metadata.getD p default)))
          (retrFiveText.vector_store.search (retrFiveText.text_embedder "pic") 5).2 0 ∧
    (retrFiveText.vector_store.search (retrFiveText.text_embedder "pic") 5).1.length = 5 ∧
    ((∀ m ∈ retrFiveText.vector_store.metadata, isImageRec m = false) →
      (retrFiveText.retrieve_image "pic" 5).1 = [] ∧
      (retrFiveText.retrieve_image "pic" 5).2.vector_store
        = retrFiveText.vector_store)) :=
  ⟨by decide, by decide, by decide, by decide,
    C9_post_filter_modality retrFiveText "pic" 5 (by decide) (by decide) (by decide)
      (by decide)⟩

/-- C10: `get_metadata` returns the store's records themselves (shared
references) and `retrieve_text` mutates them in place.  After a
successful clean retrieval the result list is nonempty; calling
`get_metadata` again on the mutated store with the same search indices
returns exactly the records the retrieval returned; every returned
record now carries `distance` and `relevance_score` keys; every returned
record is (the same dict as) an entry of the store's metadata log; and
the next `_save_index` writes that mutated log into the metadata
artifact. -/
theorem C10_in_place_mutation (r : Retriever) (d : Disk) (query : String) (k : Nat)
    (h_inv : r.vector_store.vecs.length = r.vector_store.metadata.length)
    (hq : (r.text_embedder query).length = r.vector_store.dimension)
    (hqne : r.text_embedder query ≠ [])
    (hk0 : 0 < k) (hk : k ≤ r.vector_store.vecs.length) :
    (r.retrieve_text query k).1 ≠ [] ∧
    ((r.retrieve_text query k).2.vector_store.get_metadata
        (r.vector_store.search (r.text_embedder query) k).1
      = (r.retrieve_text query k).1) ∧
    (∀ rec ∈ (r.retrieve_text query k).1,
      (getKey rec "distance").isSome ∧ (getKey rec "relevance_score").isSome) ∧
    (∀ rec ∈ (r.retrieve_text query k).1,
      rec ∈ (r.retrieve_text query k).2.vector_store.metadata) ∧
    (((r.retrieve_text query k).2.vector_store.save_index d).metaFile
      = some (r.retrieve_text query k).2.vector_store.metadata) := by
  have hcore := retrieve_text_core_clean r.vector_store (r.text_embedder query) k
    h_inv hq hqne hk
  have hres : (r.retrieve_text query k).1
      = mapScored r.vector_store.metadata
          (searchPos r.vector_store (r.text_embedder query) k)
          (r.vector_store.search (r.text_embedder query) k).2 0 := by
    show (retrieve_text_core r.vector_store (r.text_embedder query) k).1 = _
    rw [hcore]
  have hstore : (r.retrieve_text query k).2.vector_store
      = ⟨r.vector_store.dimension, r.vector_store.vecs,
          writeScoresAux r.vector_store.metadata
            (searchPos r.vector_store (r.text_embedder query) k)
            (r.vector_store.search (r.text_embedder query) k).2 0⟩ := by
    show (retrieve_text_core r.vector_store (r.text_embedder query) k).2 = _
    rw [hcore]
  have hnodup := searchPos_nodup r.vector_store (r.text_embedder query) k hq hk
  have hbounds : ∀ p ∈ searchPos r.vector_store (r.text_embedder query) k,
      p < r.vector_store.metadata.length :=
    fun p hp => h_inv ▸ searchPos_bounds r.vector_store (r.text_embedder query) k hq hk p hp
  have hwm := writeScoresAux_map r.vector_store.metadata
    (searchPos r.vector_store (r.text_embedder query) k)
    (r.vector_store.search (r.text_embedder query) k).2 0 hnodup hbounds
  have hm2len : (writeScoresAux r.vector_store.metadata
      (searchPos r.vector_store (r.text_embedder query) k)
      (r.vector_store.search (r.text_embedder query) k).2 0).length
        = r.vector_store.metadata.length :=
    writeScoresAux_length _ _ _ _
  refine ⟨?_, ?_, ?_, ?_, ?_⟩
  · rw [hres]
    refine List.length_pos.1 ?_
    rw [mapScored_length, searchPos_length r.vector_store (r.text_embedder query) k hq]
    exact hk0
  · rw [hstore, hres]
    have hpy : pyListIdx (writeScoresAux r.vector_store.metadata
        (searchPos r.vector_store (r.text_embedder query) k)
        (r.vector_store.search (r.text_embedder query) k).2 0).length
        (r.vector_store.search (r.text_embedder query) k).1
          = some (searchPos r.vector_store (r.text_embedder query) k) := by
      rw [hm2len, ← h_inv]
      exact pyListIdx_all_nonneg _ _
        (search_fst_mem_bounds r.vector_store (r.text_embedder query) k hq hk)
    simp only [VectorStore.get_metadata, hpy]
    exact hwm
  · intro rec hrec
    rw [hres] at hrec
    rcases mapScored_mem _ _ _ _ rec hrec with ⟨p, _, j, rfl⟩
    constructor
    · rw [getKey_scoreRecord_distance]
      rfl
    · rw [getKey_scoreRecord_relevance]
      rfl
  · intro rec hrec
    rw [hres, ← hwm] at hrec
    rcases List.mem_map.1 hrec with ⟨p, hp, rfl⟩
    rw [hstore]
    have hplt : p < (writeScoresAux r.vector_store.metadata
        (searchPos r.vector_store (r.text_embedder query) k)
        (r.vector_store.search (r.text_embedder query) k).2 0).length := by
      rw [hm2len]
      exact hbounds p hp
    show (writeScoresAux r.vector_store.metadata
        (searchPos r.vector_store (r.text_embedder query) k)
        (r.vector_store.search (r.text_embedder query) k).2 0).getD p default
      ∈ writeScoresAux r.vector_store.metadata
          (searchPos r.vector_store (r.text_embedder query) k)
          (r.vector_store.search (r.text_embedder query) k).2 0
    rw [List.getD_eq_getElem _ _ hplt]
    exact List.getElem_mem hplt
  · rw [hstore]
    rfl

/-- C10 witness: the theorem at `retrTwoText`, query `"q"`, `k = 2`. -/
theorem C10_in_place_mutation_witness :
    (retrTwoText.vector_store.vecs.length = retrTwoText.vector_store.metadata.length) ∧
    ((retrTwoText.text_embedder "q").length = retrTwoText.vector_store.dimension) ∧
    (retrTwoText.text_embedder "q" ≠ []) ∧
    (0 < 2) ∧ (2 ≤ retrTwoText.vector_store.vecs.length) ∧
    ((retrTwoText.retrieve_text "q" 2).1 ≠ [] ∧
    ((retrTwoText.retrieve_text "q" 2).2.vector_store.get_metadata
        (retrTwoText.vector_store.search (retrTwoText.text_embedder "q") 2).1
      = (retrTwoText.retrieve_text "q" 2).1) ∧
    (∀ rec ∈ (retrTwoText.retrieve_text "q" 2).1,
      (getKey rec "distance").isSome ∧ (getKey rec "relevance_score").isSome) ∧
    (∀ rec ∈ (retrTwoText.retrieve_text "q" 2).1,
      rec ∈ (retrTwoText.retrieve_text "q" 2).2.vector_store.metadata) ∧
    (((retrTwoText.retrieve_text "q" 2).2.vector_store.save_index ⟨none, none⟩).metaFile
      = some (retrTwoText.retrieve_text "q" 2).2.vector_store.metadata)) :=
  ⟨by decide, by decide, by decide, by decide, by decide,
    C10_in_place_mutation retrTwoText ⟨none, none⟩ "q" 2 (by decide) (by decide)
      (by decide) (by decide) (by decide)⟩
